import Mathlib

/-!
Shallow embedding of `src/Processing/add_eval.py` from the
WildHorse-Analytics-Chess repository, together with proofs of the
testable properties of its specification.

Modelling conventions:
- A pandas DataFrame of move records becomes `MoveDF ε`: a list of rows
  (each row holding the `fen` cell, the `date` cell, and an opaque bundle
  `ε` of all other columns) plus a flag recording whether the `date`
  column exists.  Rows are identified with their positional index
  (a default RangeIndex), which is what `df.iterrows()` yields on the
  (reset-index) frames the function builds.
- The third-party `chess` library call `chess.Board(fen)` is modelled as
  an abstract parameter `parseFen : String → Option Board` (`none` models
  a raised exception) and `board.is_valid()` as the `Board.isValid` field.
- `pd.to_datetime` on a single cell is an abstract parameter
  `parseDate : String → Option Date` (`none` models a raised exception);
  a cell that already holds a datetime is passed through unchanged.
- The Stockfish engine is an abstract oracle
  `engine : ℕ → ℕ → String → Option EngineResponse` taking the configured
  depth, the loop index and the fen; `none` models an exception raised
  while communicating with the engine (the body of the `try` block),
  `some r` a successful `get_evaluation()` response.
- Python `raise` at whole-call granularity becomes `Except AddEvalError`.
- The `print` side effects are captured in the result: the progress lines
  as a list of (processed-so-far, invalid-so-far) pairs, the final
  summary as a (total, invalid) pair.
- Floats are modelled by exact rationals `ℚ`.
-/

/-- Result of a successful `chess.Board(fen)` construction: all the model
needs of the board object is the boolean its `is_valid()` method returns. -/
structure Board where
  isValid : Bool
deriving DecidableEq, Repr

/-- A calendar date, as produced by `pd.to_datetime` on one cell. -/
structure Date where
  year : Int
  month : Nat
  day : Nat
deriving DecidableEq, Repr

/-- A cell of the `date` column: either a raw (unparsed) string as handed
in by upstream parsing, or an already-parsed datetime value. -/
inductive DateVal where
  | raw (s : String)
  | ts (d : Date)
deriving DecidableEq, Repr

/-- One row of the moves DataFrame: the `fen` cell, the `date` cell, and
the remaining columns bundled opaquely as `extra`. -/
structure Row (ε : Type) where
  fen : String
  date : DateVal
  extra : ε
deriving DecidableEq, Repr

/-- The moves DataFrame: its rows plus whether a `date` column exists at
all (when `hasDateCol = false` the rows' `date` fields are meaningless
placeholders). -/
structure MoveDF (ε : Type) where
  hasDateCol : Bool
  rows : List (Row ε)
deriving DecidableEq, Repr

/-- A successful `stockfish.get_evaluation()` response: the code branches
on `evaluation['type'] == 'cp'`, treating every other type as mate. -/
inductive EngineResponse where
  | cp (value : Int)
  | mate (value : Int)
deriving DecidableEq, Repr

/-- A cell of the output `eval` column.  `score q` models the float
`value / 100.0` (exactly, as a rational); `mateIn m` models the string
`f"M{value}"`, which encodes the signed mate distance; `unavailable`
models the `None` appended for invalid or failed positions. -/
inductive EvalValue where
  | score (pawns : ℚ)
  | mateIn (plies : Int)
  | unavailable
deriving DecidableEq, Repr

/-- Whole-call failures of `add_eval`: the explicit
`ValueError("DataFrame must have 'date' column for date filtering")`
and the exception `pd.to_datetime` raises on an unparseable date cell. -/
inductive AddEvalError where
  | missingColumn
  | dateParseError
deriving DecidableEq, Repr

/-- `is_valid_fen` from the source: construct the board inside a bare
`try/except` (any exception yields `False`) and otherwise return
`board.is_valid()`. -/
def is_valid_fen (parseFen : String → Option Board) (fen : String) : Bool :=
  match parseFen fen with
  | none => false
  | some board => board.isValid

/-- A `pd.Period` with monthly frequency, encoded as `year * 12 + month`
so that `≤` on `Int` is chronological order at year-month granularity. -/
def dateToPeriod (d : Date) : Int :=
  d.year * 12 + (d.month : Int)

/-- `pd.to_datetime` applied to one cell of the `date` column: a raw
string is parsed (exception = `none`), a datetime value passes through. -/
def toDatetimeCol (parseDate : String → Option Date) : DateVal → Option Date
  | DateVal.raw s => parseDate s
  | DateVal.ts d => some d

/-- One row under `df['date'] = pd.to_datetime(df['date'])` followed by
`df['year_month'] = df['date'].dt.to_period('M')`: the row with its date
cell replaced by the parsed datetime, paired with its monthly period. -/
def parseRow (parseDate : String → Option Date) (r : Row ε) :
    Option (Row ε × Int) :=
  match toDatetimeCol parseDate r.date with
  | none => none
  | some d => some ({ r with date := DateVal.ts d }, dateToPeriod d)

/-- `pd.to_datetime` over the whole `date` column followed by
`.dt.to_period('M')`: parse every cell in order, raising (`none`) if any
cell is unparseable, otherwise producing each row with its updated date
cell and its monthly period. -/
def parseRows (parseDate : String → Option Date) :
    List (Row ε) → Option (List (Row ε × Int))
  | [] => some []
  | r :: rs =>
    match parseRow parseDate r, parseRows parseDate rs with
    | some p, some ps => some (p :: ps)
    | _, _ => none

/-- The date-filtering prologue of `add_eval` (everything before the
Stockfish handle is created): if either bound is supplied, require the
`date` column, parse every date cell, keep rows whose period is `≥` the
start bound and `≤` the end bound (each filter applied only when its
bound is supplied), and drop the helper period column. -/
def filterStep (parseDate : String → Option Date) (df : MoveDF ε)
    (start_date end_date : Option Int) :
    Except AddEvalError (List (Row ε)) :=
  if start_date.isSome || end_date.isSome then
    if df.hasDateCol = false then
      Except.error AddEvalError.missingColumn
    else
      match parseRows parseDate df.rows with
      | none => Except.error AddEvalError.dateParseError
      | some ps =>
        let ps1 : List (Row ε × Int) := match start_date with
          | some s => ps.filter (fun p => decide (s ≤ p.2))
          | none => ps
        let ps2 : List (Row ε × Int) := match end_date with
          | some e => ps1.filter (fun p => decide (p.2 ≤ e))
          | none => ps1
        Except.ok (ps2.map Prod.fst)
  else
    Except.ok df.rows

/-- Mapping of a successful engine response to the appended eval value:
`evaluation['value'] / 100.0` for a centipawn response, the mate marker
(`f"M{...}"`, modelled structurally) otherwise. -/
def mapResponse : EngineResponse → EvalValue
  | EngineResponse.cp v => EvalValue.score ((v : ℚ) / 100)
  | EngineResponse.mate m => EvalValue.mateIn m

/-- Everything the enrichment loop of `add_eval` produces: the `eval`
column, the final invalid counter, how many times the engine was
contacted, and the progress lines printed along the way. -/
structure LoopOut where
  evals : List EvalValue
  invalid : Nat
  calls : Nat
  progress : List (Nat × Nat)
deriving DecidableEq, Repr

/-- The `for index, row in df.iterrows()` loop of `add_eval`, over the
list of fen cells with the running index, invalid counter and engine
call counter.  An invalid fen appends `None`, bumps the counter and
`continue`s (skipping the progress check); a valid fen contacts the
engine (one call even when it raises), appends the mapped response or
`None` on an exception, and then runs the every-50th progress check. -/
def runLoop (isValid : String → Bool)
    (engine : Nat → String → Option EngineResponse) :
    List String → Nat → Nat → Nat → LoopOut
  | [], _, invalid, calls => ⟨[], invalid, calls, []⟩
  | fen :: rest, index, invalid, calls =>
    if !(isValid fen) then
      let tail := runLoop isValid engine rest (index + 1) (invalid + 1) calls
      ⟨EvalValue.unavailable :: tail.evals, tail.invalid, tail.calls,
        tail.progress⟩
    else
      let ev := match engine index fen with
        | some r => mapResponse r
        | none => EvalValue.unavailable
      let tail := runLoop isValid engine rest (index + 1) invalid (calls + 1)
      ⟨ev :: tail.evals, tail.invalid, tail.calls,
        (if (index + 1) % 50 = 0 then [(index + 1, invalid)] else [])
          ++ tail.progress⟩

/-- The result of a successful `add_eval` call: the returned frame with
its appended `eval` column (`out` pairs each surviving row with exactly
one eval cell), the invalid counter, the number of engine contacts, the
progress lines, and the final summary `(total, invalid)`. -/
structure AddEvalResult (ε : Type) where
  out : List (Row ε × EvalValue)
  invalidCount : Nat
  engineCalls : Nat
  progressLog : List (Nat × Nat)
  summary : Nat × Nat
deriving DecidableEq, Repr

/-- `add_eval` from the source: copy the frame, run the optional
date-filtering prologue (fail-fast), create the engine handle, run the
enrichment loop over the surviving rows' fens, append the eval column
(`df['eval'] = evals`) and print the summary. -/
def add_eval (parseFen : String → Option Board)
    (parseDate : String → Option Date)
    (engine : Nat → Nat → String → Option EngineResponse)
    (df : MoveDF ε) (depth : Nat)
    (start_date end_date : Option Int) :
    Except AddEvalError (AddEvalResult ε) :=
  match filterStep parseDate df start_date end_date with
  | Except.error e => Except.error e
  | Except.ok rows =>
    let lo := runLoop (is_valid_fen parseFen) (engine depth)
      (rows.map Row.fen) 0 0 0
    Except.ok ⟨rows.zip lo.evals, lo.invalid, lo.calls, lo.progress,
      (rows.length, lo.invalid)⟩

/-- The eval value one loop iteration appends for the record at `index`
with fen cell `fen`. -/
def evalOne (isValid : String → Bool)
    (engine : Nat → String → Option EngineResponse)
    (index : Nat) (fen : String) : EvalValue :=
  if !(isValid fen) then EvalValue.unavailable
  else
    match engine index fen with
    | some r => mapResponse r
    | none => EvalValue.unavailable

lemma runLoop_evals (v : String → Bool)
    (e : Nat → String → Option EngineResponse) (fens : List String) :
    ∀ (i inv c : Nat),
      (runLoop v e fens i inv c).evals =
        (List.range fens.length).map
          (fun j => evalOne v e (i + j) (fens.getD j "")) := by
  induction fens with
  | nil => intro i inv c; simp [runLoop]
  | cons fen rest ih =>
    intro i inv c
    rw [List.length_cons, List.range_succ_eq_map, List.map_cons,
      List.map_map]
    have htail : List.map
        ((fun j => evalOne v e (i + j) ((fen :: rest).getD j "")) ∘ Nat.succ)
        (List.range rest.length) =
        List.map (fun j => evalOne v e (i + 1 + j) (rest.getD j ""))
        (List.range rest.length) := by
      apply List.map_congr_left
      intro j _
      simp only [Function.comp_apply, List.getD_cons_succ]
      have : i + Nat.succ j = i + 1 + j := by omega
      rw [this]
    by_cases h : v fen
    · simp only [runLoop, h, Bool.not_true, Bool.false_eq_true, if_false,
        htail, ← ih (i + 1) inv (c + 1)]
      have hhead : evalOne v e (i + 0) ((fen :: rest).getD 0 "") =
          match e i fen with
          | some r => mapResponse r
          | none => EvalValue.unavailable := by
        simp [evalOne, h]
      rw [hhead]
    · simp only [runLoop, h, Bool.not_false, if_true,
        htail, ← ih (i + 1) (inv + 1) c]
      have hhead : evalOne v e (i + 0) ((fen :: rest).getD 0 "") =
          EvalValue.unavailable := by
        simp [evalOne, h]
      rw [hhead]

lemma runLoop_length_evals (v : String → Bool)
    (e : Nat → String → Option EngineResponse) (fens : List String)
    (i inv c : Nat) :
    (runLoop v e fens i inv c).evals.length = fens.length := by
  rw [runLoop_evals]
  simp

lemma runLoop_invalid (v : String → Bool)
    (e : Nat → String → Option EngineResponse) (fens : List String) :
    ∀ (i inv c : Nat),
      (runLoop v e fens i inv c).invalid =
        inv + List.countP (fun f => !(v f)) fens := by
  induction fens with
  | nil => intro i inv c; simp [runLoop]
  | cons fen rest ih =>
    intro i inv c
    by_cases h : v fen
    · simp only [runLoop, h, Bool.not_true, Bool.false_eq_true, if_false,
        ih, List.countP_cons]
      omega
    · simp only [runLoop, h, Bool.not_false, if_true, ih, List.countP_cons]
      omega

/-- The specification's retention predicate: the record's monthly period
lies within `[start, end]` inclusive, an omitted bound leaving that side
of the interval open. -/
def inBounds (start_date end_date : Option Int) (p : Int) : Bool :=
  Option.all (fun s => decide (s ≤ p)) start_date &&
    Option.all (fun e => decide (p ≤ e)) end_date

/-- With a date column present, all dates parseable, and at least one
bound supplied, the two sequential pandas filters of `filterStep` keep
exactly the rows whose period satisfies `inBounds`, in order. -/
lemma filterStep_eq_filter (pd : String → Option Date) (df : MoveDF ε)
    (sd ed : Option Int) (ps : List (Row ε × Int))
    (hcol : df.hasDateCol = true)
    (hps : parseRows pd df.rows = some ps)
    (hsome : (sd.isSome || ed.isSome) = true) :
    filterStep pd df sd ed =
      Except.ok ((ps.filter (fun p => inBounds sd ed p.2)).map Prod.fst) := by
  unfold filterStep
  rw [hsome, hps]
  simp only [hcol, if_true]
  cases sd with
  | none =>
    cases ed with
    | none => simp at hsome
    | some e => simp [inBounds]
  | some s =>
    cases ed with
    | none => simp [inBounds]
    | some e =>
      simp only [List.filter_filter, inBounds, Option.all_some, if_true,
        Bool.true_and, reduceCtorEq, if_false]
      rw [List.filter_congr (fun x _ => Bool.and_comm
        (decide ((x : Row ε × Int).2 ≤ e)) (decide (s ≤ x.2)))]

/-- If any date cell of the column fails to parse, the whole column
conversion fails (models `pd.to_datetime` raising). -/
lemma parseRows_eq_none_of_mem (pd : String → Option Date)
    (l : List (Row ε)) (r : Row ε) (hr : r ∈ l)
    (hfr : parseRow pd r = none) : parseRows pd l = none := by
  induction l with
  | nil => simp at hr
  | cons x xs ih =>
    rcases List.mem_cons.mp hr with h | h
    · subst h
      simp [parseRows, hfr]
    · cases hfx : parseRow pd x <;> simp [parseRows, hfx, ih h]

/-- Every row a successful column conversion produces comes from some
input row. -/
lemma parseRows_mem (pd : String → Option Date) (l : List (Row ε))
    (ps : List (Row ε × Int)) (h : parseRows pd l = some ps) :
    ∀ p ∈ ps, ∃ r ∈ l, parseRow pd r = some p := by
  induction l generalizing ps with
  | nil =>
    simp only [parseRows, Option.some.injEq] at h
    subst h
    simp
  | cons x xs ih =>
    intro p hp
    rcases hfx : parseRow pd x with _ | q <;>
      rcases hml : parseRows pd xs with _ | qs <;>
      simp only [parseRows, hfx, hml] at h <;>
      try exact Option.noConfusion h
    obtain rfl : q :: qs = ps := Option.some.inj h
    rcases List.mem_cons.mp hp with h' | h'
    · exact ⟨x, List.mem_cons_self x xs, h' ▸ hfx⟩
    · rcases ih qs hml p h' with ⟨r, hr, hfr⟩
      exact ⟨r, List.mem_cons_of_mem x hr, hfr⟩

/-- A successful column conversion preserves the number of rows. -/
lemma parseRows_length (pd : String → Option Date) (l : List (Row ε))
    (ps : List (Row ε × Int)) (h : parseRows pd l = some ps) :
    ps.length = l.length := by
  induction l generalizing ps with
  | nil =>
    simp only [parseRows, Option.some.injEq] at h
    subst h
    rfl
  | cons x xs ih =>
    rcases hfx : parseRow pd x with _ | q <;>
      rcases hml : parseRows pd xs with _ | qs <;>
      simp only [parseRows, hfx, hml] at h <;>
      try exact Option.noConfusion h
    obtain rfl : q :: qs = ps := Option.some.inj h
    simp [ih qs hml]

/-- `add_eval` on a frame whose filtering prologue succeeds: the loop
runs over the surviving rows and assembles the result. -/
lemma add_eval_of_filterStep (pf : String → Option Board)
    (pd : String → Option Date)
    (engine : Nat → Nat → String → Option EngineResponse)
    (df : MoveDF ε) (depth : Nat) (sd ed : Option Int)
    (rows : List (Row ε))
    (hf : filterStep pd df sd ed = Except.ok rows) :
    add_eval pf pd engine df depth sd ed =
      Except.ok
        ⟨rows.zip (runLoop (is_valid_fen pf) (engine depth)
            (rows.map Row.fen) 0 0 0).evals,
          (runLoop (is_valid_fen pf) (engine depth)
            (rows.map Row.fen) 0 0 0).invalid,
          (runLoop (is_valid_fen pf) (engine depth)
            (rows.map Row.fen) 0 0 0).calls,
          (runLoop (is_valid_fen pf) (engine depth)
            (rows.map Row.fen) 0 0 0).progress,
          (rows.length,
            (runLoop (is_valid_fen pf) (engine depth)
              (rows.map Row.fen) 0 0 0).invalid)⟩ := by
  simp [add_eval, hf]

/-- Any successful `add_eval` factors through a successful `filterStep`:
the surviving rows are recoverable from the output, and the loop data
determines every field of the result. -/
lemma add_eval_ok_inv (pf : String → Option Board)
    (pd : String → Option Date)
    (engine : Nat → Nat → String → Option EngineResponse)
    (df : MoveDF ε) (depth : Nat) (sd ed : Option Int)
    (res : AddEvalResult ε)
    (h : add_eval pf pd engine df depth sd ed = Except.ok res) :
    ∃ rows, filterStep pd df sd ed = Except.ok rows ∧
      res = ⟨rows.zip (runLoop (is_valid_fen pf) (engine depth)
          (rows.map Row.fen) 0 0 0).evals,
        (runLoop (is_valid_fen pf) (engine depth)
          (rows.map Row.fen) 0 0 0).invalid,
        (runLoop (is_valid_fen pf) (engine depth)
          (rows.map Row.fen) 0 0 0).calls,
        (runLoop (is_valid_fen pf) (engine depth)
          (rows.map Row.fen) 0 0 0).progress,
        (rows.length,
          (runLoop (is_valid_fen pf) (engine depth)
            (rows.map Row.fen) 0 0 0).invalid)⟩ ∧
      res.out.map Prod.fst = rows := by
  rcases hf : filterStep pd df sd ed with e | rows
  · rw [add_eval, hf] at h
    simp at h
  · refine ⟨rows, rfl, ?_⟩
    rw [add_eval_of_filterStep pf pd engine df depth sd ed rows hf] at h
    have hres := (Except.ok.injEq _ _).mp h
    refine ⟨hres.symm, ?_⟩
    rw [← hres]
    apply List.map_fst_zip
    rw [runLoop_length_evals, List.length_map]

/-- The length of the output of a successful `add_eval` equals the
number of surviving rows. -/
lemma add_eval_out_length (pf : String → Option Board)
    (pd : String → Option Date)
    (engine : Nat → Nat → String → Option EngineResponse)
    (df : MoveDF ε) (depth : Nat) (sd ed : Option Int)
    (rows : List (Row ε)) (res : AddEvalResult ε)
    (hf : filterStep pd df sd ed = Except.ok rows)
    (h : add_eval pf pd engine df depth sd ed = Except.ok res) :
    res.out.length = rows.length := by
  obtain ⟨rows', hf', hres, _⟩ :=
    add_eval_ok_inv pf pd engine df depth sd ed res h
  rw [hf] at hf'
  obtain rfl : rows = rows' := Except.ok.inj hf'
  rw [hres]
  simp only [List.length_zip, runLoop_length_evals, List.length_map,
    min_self]

/-- Pointwise description of a successful `add_eval` output: the `i`-th
output pair is the `i`-th surviving row together with the eval value
`evalOne` computes for it. -/
lemma add_eval_out_get (pf : String → Option Board)
    (pd : String → Option Date)
    (engine : Nat → Nat → String → Option EngineResponse)
    (df : MoveDF ε) (depth : Nat) (sd ed : Option Int)
    (rows : List (Row ε)) (res : AddEvalResult ε)
    (hf : filterStep pd df sd ed = Except.ok rows)
    (h : add_eval pf pd engine df depth sd ed = Except.ok res)
    (i : Nat) (hi : i < res.out.length) :
    ∃ hir : i < rows.length,
      (res.out.get ⟨i, hi⟩).1 = rows.get ⟨i, hir⟩ ∧
      (res.out.get ⟨i, hi⟩).2 =
        evalOne (is_valid_fen pf) (engine depth) i
          ((rows.get ⟨i, hir⟩).fen) := by
  obtain ⟨rows', hf', hres, _⟩ :=
    add_eval_ok_inv pf pd engine df depth sd ed res h
  rw [hf] at hf'
  obtain rfl : rows = rows' := Except.ok.inj hf'
  have hir : i < rows.length := by
    rw [add_eval_out_length pf pd engine df depth sd ed rows res hf h] at hi
    exact hi
  refine ⟨hir, ?_⟩
  have hfen : i < (rows.map Row.fen).length := by
    rw [List.length_map]; exact hir
  have hget : res.out.get ⟨i, hi⟩ =
      (rows.get ⟨i, hir⟩,
        evalOne (is_valid_fen pf) (engine depth) i
          ((rows.map Row.fen).get ⟨i, hfen⟩)) := by
    rw [List.get_eq_getElem]
    rw [List.getElem_of_eq (congrArg AddEvalResult.out hres) hi,
      List.getElem_zip]
    have hev := runLoop_evals (is_valid_fen pf) (engine depth)
      (rows.map Row.fen) 0 0 0
    have hie : i < (runLoop (is_valid_fen pf) (engine depth)
        (rows.map Row.fen) 0 0 0).evals.length := by
      rw [runLoop_length_evals, List.length_map]; exact hir
    rw [List.getElem_of_eq hev hie]
    simp [List.getElem_map, List.getElem_range, List.getD_eq_getElem,
      hfen, List.getElem?_eq_getElem, hir]
  rw [hget]
  constructor
  · rfl
  · simp [List.get_eq_getElem, List.getElem_map]

lemma filterMap_fun_ext {α β : Type _} {f g : α → Option β} (l : List α)
    (h : ∀ a, f a = g a) : List.filterMap f l = List.filterMap g l :=
  congrArg (fun k => List.filterMap k l) (funext h)

lemma runLoop_progress (v : String → Bool)
    (e : Nat → String → Option EngineResponse) (fens : List String) :
    ∀ (i inv c : Nat),
      (runLoop v e fens i inv c).progress =
        (List.range fens.length).filterMap (fun j =>
          if v (fens.getD j "") = true ∧ (i + j + 1) % 50 = 0 then
            some (i + j + 1,
              inv + List.countP (fun f => !(v f)) (fens.take j))
          else none) := by
  induction fens with
  | nil => intro i inv c; simp [runLoop]
  | cons fen rest ih =>
    intro i inv c
    have htail : ∀ j : Nat,
        ((fun j =>
          if v ((fen :: rest).getD j "") = true ∧ (i + j + 1) % 50 = 0 then
            some (i + j + 1,
              inv + List.countP (fun f => !(v f)) ((fen :: rest).take j))
          else none) ∘ Nat.succ) j =
        (fun j =>
          if v (rest.getD j "") = true ∧ (i + 1 + j + 1) % 50 = 0 then
            some (i + 1 + j + 1,
              (if v fen then inv else inv + 1) +
                List.countP (fun f => !(v f)) (rest.take j))
          else none) j := by
      intro j
      have e1 : i + (j + 1) + 1 = i + 1 + j + 1 := by omega
      simp only [Function.comp_apply, List.getD_cons_succ,
        List.take_succ_cons, List.countP_cons, e1]
      by_cases h : v fen
      · simp [h]
      · simp only [h, Bool.not_false, if_true, if_false]
        have e2 : inv + (List.countP (fun f => !(v f)) (rest.take j) + 1) =
            inv + 1 + List.countP (fun f => !(v f)) (rest.take j) := by
          omega
        rw [e2]
        simp
    by_cases h : v fen
    · simp only [runLoop, h, Bool.not_true, Bool.false_eq_true, if_false]
      rw [ih (i + 1) inv (c + 1), List.length_cons,
        List.range_succ_eq_map, List.filterMap_cons, List.filterMap_map,
        filterMap_fun_ext _ htail]
      simp only [h, if_true, List.getD_cons_zero, List.take_zero,
        List.countP_nil, Nat.add_zero, true_and]
      by_cases h50 : (i + 1) % 50 = 0
      · simp [h50]
      · simp [h50]
    · simp only [runLoop, h, Bool.not_false, if_true]
      rw [ih (i + 1) (inv + 1) c, List.length_cons,
        List.range_succ_eq_map, List.filterMap_cons, List.filterMap_map,
        filterMap_fun_ext _ htail]
      simp [h]

lemma runLoop_calls (v : String → Bool)
    (e : Nat → String → Option EngineResponse) (fens : List String) :
    ∀ (i inv c : Nat),
      (runLoop v e fens i inv c).calls = c + List.countP v fens := by
  induction fens with
  | nil => intro i inv c; simp [runLoop]
  | cons fen rest ih =>
    intro i inv c
    by_cases h : v fen
    · simp only [runLoop, h, Bool.not_true, Bool.false_eq_true, if_false,
        ih, List.countP_cons]
      simp only [h, if_true]
      omega
    · simp only [runLoop, h, Bool.not_false, if_true, ih, List.countP_cons]
      simp [h]

/-! Concrete instances of the abstract collaborators, used by the
witness and counterexample theorems below. -/

/-- Concrete fen parser: "legal" builds a legal board, "illegal" a board
failing the legality check, anything else raises. -/
def demoParseFen : String → Option Board := fun s =>
  if s = "legal" then some ⟨true⟩
  else if s = "illegal" then some ⟨false⟩
  else none

/-- Concrete date parser recognising two fixed dates. -/
def demoParseDate : String → Option Date := fun s =>
  if s = "2024-01-15" then some ⟨2024, 1, 15⟩
  else if s = "2024-03-02" then some ⟨2024, 3, 2⟩
  else none

/-- Engine oracle answering mate-in-2 everywhere. -/
def demoEngine : Nat → Nat → String → Option EngineResponse :=
  fun _ _ _ => some (EngineResponse.mate 2)

/-- Engine oracle that always raises. -/
def demoEngineFail : Nat → Nat → String → Option EngineResponse :=
  fun _ _ _ => none

/-- A two-row frame with a date column: one valid fen, one invalid. -/
def demoDF : MoveDF Unit :=
  ⟨true, [⟨"legal", DateVal.raw "2024-01-15", ()⟩,
    ⟨"junk", DateVal.raw "2024-03-02", ()⟩]⟩

/-- The result `add_eval` produces on `demoDF` with no date filter and
the always-mate engine. -/
def demoRes : AddEvalResult Unit :=
  ⟨[(⟨"legal", DateVal.raw "2024-01-15", ()⟩, EvalValue.mateIn 2),
    (⟨"junk", DateVal.raw "2024-03-02", ()⟩, EvalValue.unavailable)],
    1, 1, [], (2, 1)⟩

/-- C1: for every input record collection, depth and optional date
range, a successful `add_eval` returns exactly the (possibly filtered)
input sequence with one `eval` value paired to each record: the output
rows are the surviving rows in their original order without reordering
or deduplication, the output length equals the filtered length, and
equals the input length when no date filter is applied; pairing each row
with a single `EvalValue` in `out` realises the exactly-one-evaluation
invariant. -/
theorem C1_output_is_filtered_input_with_one_eval
    (pf : String → Option Board) (pd : String → Option Date)
    (engine : Nat → Nat → String → Option EngineResponse)
    (df : MoveDF ε) (depth : Nat) (sd ed : Option Int)
    (rows : List (Row ε)) (res : AddEvalResult ε)
    (hf : filterStep pd df sd ed = Except.ok rows)
    (h : add_eval pf pd engine df depth sd ed = Except.ok res) :
    res.out.map Prod.fst = rows ∧
    res.out.length = rows.length ∧
    (sd = none → ed = none →
      res.out.map Prod.fst = df.rows ∧
      res.out.length = df.rows.length) := by
  obtain ⟨rows', hf', hres, hfst⟩ :=
    add_eval_ok_inv pf pd engine df depth sd ed res h
  rw [hf] at hf'
  obtain rfl : rows = rows' := Except.ok.inj hf'
  refine ⟨hfst,
    add_eval_out_length pf pd engine df depth sd ed rows res hf h, ?_⟩
  rintro rfl rfl
  have hnone : filterStep pd df none none = Except.ok df.rows := by
    simp [filterStep]
  rw [hnone] at hf
  obtain rfl : df.rows = rows := Except.ok.inj hf
  exact ⟨hfst, add_eval_out_length pf pd engine df depth none none
    df.rows res hnone h⟩

theorem C1_witness :
    add_eval demoParseFen demoParseDate demoEngine demoDF 15 none none =
      Except.ok demoRes ∧
    demoRes.out.map Prod.fst = demoDF.rows ∧
    demoRes.out.length = demoDF.rows.length := by
  have h : add_eval demoParseFen demoParseDate demoEngine demoDF 15
      none none = Except.ok demoRes := by rfl
  have hf : filterStep demoParseDate demoDF none none =
      Except.ok demoDF.rows := by rfl
  have hc := C1_output_is_filtered_input_with_one_eval demoParseFen
    demoParseDate demoEngine demoDF 15 none none demoDF.rows demoRes hf h
  exact ⟨h, hc.1, hc.2.1⟩

/-- C2: every surviving record whose fen fails `is_valid_fen` gets the
`Unavailable` eval value; the engine call counter counts exactly the
valid fens (so the evaluator is never contacted for an invalid record),
the invalid counter counts exactly the invalid fens, and processing
still covers every surviving record. -/
theorem C2_invalid_fen_skips_engine
    (pf : String → Option Board) (pd : String → Option Date)
    (engine : Nat → Nat → String → Option EngineResponse)
    (df : MoveDF ε) (depth : Nat) (sd ed : Option Int)
    (rows : List (Row ε)) (res : AddEvalResult ε)
    (hf : filterStep pd df sd ed = Except.ok rows)
    (h : add_eval pf pd engine df depth sd ed = Except.ok res) :
    (∀ i (hi : i < res.out.length),
      is_valid_fen pf ((res.out.get ⟨i, hi⟩).1.fen) = false →
        (res.out.get ⟨i, hi⟩).2 = EvalValue.unavailable) ∧
    res.engineCalls =
      List.countP (is_valid_fen pf) (rows.map Row.fen) ∧
    res.invalidCount =
      List.countP (fun f => !(is_valid_fen pf f)) (rows.map Row.fen) ∧
    res.out.length = rows.length := by
  obtain ⟨rows', hf', hres, _⟩ :=
    add_eval_ok_inv pf pd engine df depth sd ed res h
  rw [hf] at hf'
  obtain rfl : rows = rows' := Except.ok.inj hf'
  refine ⟨?_, ?_, ?_,
    add_eval_out_length pf pd engine df depth sd ed rows res hf h⟩
  · intro i hi hinv
    obtain ⟨hir, h1, h2⟩ :=
      add_eval_out_get pf pd engine df depth sd ed rows res hf h i hi
    rw [h1] at hinv
    rw [h2, evalOne, hinv]
    simp
  · rw [hres]
    simp only [runLoop_calls, Nat.zero_add]
  · rw [hres]
    simp only [runLoop_invalid, Nat.zero_add]

theorem C2_witness :
    add_eval demoParseFen demoParseDate demoEngine demoDF 15 none none =
      Except.ok demoRes ∧
    demoRes.engineCalls = 1 ∧
    demoRes.invalidCount = 1 ∧
    (demoRes.out.get ⟨1, by decide⟩).2 = EvalValue.unavailable := by
  have h : add_eval demoParseFen demoParseDate demoEngine demoDF 15
      none none = Except.ok demoRes := by rfl
  have hf : filterStep demoParseDate demoDF none none =
      Except.ok demoDF.rows := by rfl
  have hc := C2_invalid_fen_skips_engine demoParseFen demoParseDate
    demoEngine demoDF 15 none none demoDF.rows demoRes hf h
  refine ⟨h, ?_, ?_, ?_⟩
  · rw [hc.2.1]; rfl
  · rw [hc.2.2.1]; rfl
  · exact hc.1 1 (by decide) (by decide)

/-- C3: an engine-communication failure is caught at single-position
granularity.  If two engines agree everywhere except at index `i`, the
two runs of `add_eval` produce outputs of the same length agreeing at
every index other than `i` (no failure aborts or perturbs the rest), and
if the engine raises at index `i` that record's eval is `Unavailable`. -/
theorem C3_engine_failure_isolated
    (pf : String → Option Board) (pd : String → Option Date)
    (engine engine' : Nat → Nat → String → Option EngineResponse)
    (df : MoveDF ε) (depth : Nat) (sd ed : Option Int) (i : Nat)
    (res res' : AddEvalResult ε)
    (h : add_eval pf pd engine df depth sd ed = Except.ok res)
    (h' : add_eval pf pd engine' df depth sd ed = Except.ok res')
    (agree : ∀ d j f, j ≠ i → engine d j f = engine' d j f) :
    res.out.length = res'.out.length ∧
    (∀ j (hj : j < res.out.length) (hj' : j < res'.out.length), j ≠ i →
      res.out.get ⟨j, hj⟩ = res'.out.get ⟨j, hj'⟩) ∧
    (∀ hi : i < res.out.length,
      engine depth i ((res.out.get ⟨i, hi⟩).1.fen) = none →
        (res.out.get ⟨i, hi⟩).2 = EvalValue.unavailable) := by
  obtain ⟨rows, hf, _, _⟩ :=
    add_eval_ok_inv pf pd engine df depth sd ed res h
  have hlen := add_eval_out_length pf pd engine df depth sd ed rows res hf h
  have hlen' :=
    add_eval_out_length pf pd engine' df depth sd ed rows res' hf h'
  refine ⟨by rw [hlen, hlen'], ?_, ?_⟩
  · intro j hj hj' hne
    obtain ⟨hjr, hfst, hsnd⟩ :=
      add_eval_out_get pf pd engine df depth sd ed rows res hf h j hj
    obtain ⟨hjr', hfst', hsnd'⟩ :=
      add_eval_out_get pf pd engine' df depth sd ed rows res' hf h' j hj'
    have hrow : rows.get ⟨j, hjr⟩ = rows.get ⟨j, hjr'⟩ := rfl
    have heval : evalOne (is_valid_fen pf) (engine depth) j
        ((rows.get ⟨j, hjr⟩).fen) =
        evalOne (is_valid_fen pf) (engine' depth) j
        ((rows.get ⟨j, hjr⟩).fen) := by
      unfold evalOne
      rw [agree depth j ((rows.get ⟨j, hjr⟩).fen) hne]
    have hp : res.out.get ⟨j, hj⟩ =
        (rows.get ⟨j, hjr⟩,
          evalOne (is_valid_fen pf) (engine depth) j
            ((rows.get ⟨j, hjr⟩).fen)) :=
      Prod.ext hfst hsnd
    have hp' : res'.out.get ⟨j, hj'⟩ =
        (rows.get ⟨j, hjr'⟩,
          evalOne (is_valid_fen pf) (engine' depth) j
            ((rows.get ⟨j, hjr'⟩).fen)) :=
      Prod.ext hfst' hsnd'
    rw [hp, hp', heval]
  · intro hi hnone
    obtain ⟨hir, hfst, hsnd⟩ :=
      add_eval_out_get pf pd engine df depth sd ed rows res hf h i hi
    rw [hfst] at hnone
    rw [hsnd, evalOne]
    simp only [List.get_eq_getElem] at hnone
    cases hv : is_valid_fen pf ((rows.get ⟨i, hir⟩).fen) with
    | false =>
      simp only [List.get_eq_getElem] at hv
      simp [hv]
    | true =>
      simp only [List.get_eq_getElem] at hv
      simp [hv, hnone]

/-- Engine oracle that raises exactly on the record at loop index 0 and
answers mate-in-2 everywhere else. -/
def demoEngineFailAt0 : Nat → Nat → String → Option EngineResponse :=
  fun _ j _ => if j = 0 then none else some (EngineResponse.mate 2)

/-- The result `add_eval` produces on `demoDF` with no date filter and
the engine failing at index 0. -/
def demoResFail : AddEvalResult Unit :=
  ⟨[(⟨"legal", DateVal.raw "2024-01-15", ()⟩, EvalValue.unavailable),
    (⟨"junk", DateVal.raw "2024-03-02", ()⟩, EvalValue.unavailable)],
    1, 1, [], (2, 1)⟩

theorem C3_witness :
    add_eval demoParseFen demoParseDate demoEngineFailAt0 demoDF 15 none
      none = Except.ok demoResFail ∧
    (demoResFail.out.get ⟨0, by decide⟩).2 = EvalValue.unavailable ∧
    (demoResFail.out.get ⟨1, by decide⟩) =
      (demoRes.out.get ⟨1, by decide⟩) := by
  have h : add_eval demoParseFen demoParseDate demoEngineFailAt0 demoDF
      15 none none = Except.ok demoResFail := by rfl
  have h' : add_eval demoParseFen demoParseDate demoEngine demoDF 15
      none none = Except.ok demoRes := by rfl
  have hagree : ∀ d j f, j ≠ 0 →
      demoEngineFailAt0 d j f = demoEngine d j f := by
    intro d j f hne
    simp [demoEngineFailAt0, demoEngine, hne]
  have hc := C3_engine_failure_isolated demoParseFen demoParseDate
    demoEngineFailAt0 demoEngine demoDF 15 none none 0 demoResFail
    demoRes h h' hagree
  refine ⟨h, ?_, ?_⟩
  · exact hc.2.2 (by decide) (by rfl)
  · exact hc.2.1 1 (by decide) (by decide) (by decide)

/-- C4: when a date range is supplied but the frame has no `date`
column, `add_eval` fails with the missing-column error before any engine
work: the result is the same error for every engine oracle, so the
engine is never initialised and the evaluator is invoked zero times. -/
theorem C4_missing_date_column_fails_fast
    (pf : String → Option Board) (pd : String → Option Date)
    (df : MoveDF ε) (depth : Nat) (sd ed : Option Int)
    (hcol : df.hasDateCol = false)
    (hrange : (sd.isSome || ed.isSome) = true) :
    ∀ engine, add_eval pf pd engine df depth sd ed =
      Except.error AddEvalError.missingColumn := by
  intro engine
  have hf : filterStep pd df sd ed =
      Except.error AddEvalError.missingColumn := by
    unfold filterStep
    rw [hrange, hcol]
    simp
  simp [add_eval, hf]

theorem C4_witness :
    add_eval demoParseFen demoParseDate demoEngine
      ⟨false, demoDF.rows⟩ 15 (some 24289) none =
      Except.error AddEvalError.missingColumn :=
  C4_missing_date_column_fails_fast demoParseFen demoParseDate
    ⟨false, demoDF.rows⟩ 15 (some 24289) none rfl rfl demoEngine

/-- C5: the evaluator maps a centipawn response `{type: "cp", value: v}`
to `Score (v / 100)` — so 250 yields 2.5 pawns — and a mate response
`{type: "mate", value: m}` to `MateIn m` with the sign preserved, so -3
yields `MateIn (-3)`; and that mapping is exactly what a successful
`add_eval` records for a valid record the engine answers. -/
theorem C5_engine_response_mapping
    (pf : String → Option Board) (pd : String → Option Date)
    (engine : Nat → Nat → String → Option EngineResponse)
    (df : MoveDF ε) (depth : Nat) (sd ed : Option Int)
    (rows : List (Row ε)) (res : AddEvalResult ε)
    (hf : filterStep pd df sd ed = Except.ok rows)
    (h : add_eval pf pd engine df depth sd ed = Except.ok res) :
    (∀ i (hi : i < res.out.length) r,
      is_valid_fen pf ((res.out.get ⟨i, hi⟩).1.fen) = true →
      engine depth i ((res.out.get ⟨i, hi⟩).1.fen) = some r →
        (res.out.get ⟨i, hi⟩).2 = mapResponse r) ∧
    (∀ v : Int, mapResponse (EngineResponse.cp v) =
      EvalValue.score ((v : ℚ) / 100)) ∧
    mapResponse (EngineResponse.cp 250) = EvalValue.score (5 / 2) ∧
    (∀ m : Int, mapResponse (EngineResponse.mate m) =
      EvalValue.mateIn m) ∧
    mapResponse (EngineResponse.mate (-3)) = EvalValue.mateIn (-3) := by
  refine ⟨?_, fun v => rfl, ?_, fun m => rfl, rfl⟩
  · intro i hi r hv hr
    obtain ⟨hir, hfst, hsnd⟩ :=
      add_eval_out_get pf pd engine df depth sd ed rows res hf h i hi
    rw [hfst] at hv hr
    rw [hsnd, evalOne, hv, hr]
    simp
  · simp [mapResponse]
    norm_num

theorem C5_witness :
    add_eval demoParseFen demoParseDate demoEngine demoDF 15 none none =
      Except.ok demoRes ∧
    (demoRes.out.get ⟨0, by decide⟩).2 =
      mapResponse (EngineResponse.mate 2) := by
  have h : add_eval demoParseFen demoParseDate demoEngine demoDF 15
      none none = Except.ok demoRes := by rfl
  have hf : filterStep demoParseDate demoDF none none =
      Except.ok demoDF.rows := by rfl
  have hc := C5_engine_response_mapping demoParseFen demoParseDate
    demoEngine demoDF 15 none none demoDF.rows demoRes hf h
  exact ⟨h, hc.1 0 (by decide) (EngineResponse.mate 2) (by decide) rfl⟩

/-- C6: with a date range supplied (and the date column present and
parseable), the filtering step retains a record iff its date's monthly
period lies within `[start, end]` inclusive, keeping the original order;
an omitted bound leaves that side open, and the period ignores the
day-of-month. -/
theorem C6_date_filter_inclusive_interval
    (pd : String → Option Date) (df : MoveDF ε) (sd ed : Option Int)
    (ps : List (Row ε × Int))
    (hcol : df.hasDateCol = true)
    (hps : parseRows pd df.rows = some ps)
    (hsome : (sd.isSome || ed.isSome) = true) :
    filterStep pd df sd ed =
      Except.ok ((ps.filter (fun p => inBounds sd ed p.2)).map Prod.fst) ∧
    (∀ y : Int, inBounds sd ed y = true ↔
      (∀ s ∈ sd, s ≤ y) ∧ (∀ e ∈ ed, y ≤ e)) ∧
    (∀ d d' : Date, d.year = d'.year → d.month = d'.month →
      dateToPeriod d = dateToPeriod d') := by
  refine ⟨filterStep_eq_filter pd df sd ed ps hcol hps hsome, ?_, ?_⟩
  · intro y
    cases sd <;> cases ed <;> simp [inBounds]
  · intro d d' hy hm
    simp [dateToPeriod, hy, hm]

/-- The rows of `demoDF` after the date-column conversion, paired with
their monthly periods. -/
def demoParsed : List (Row Unit × Int) :=
  [(⟨"legal", DateVal.ts ⟨2024, 1, 15⟩, ()⟩, 24289),
    (⟨"junk", DateVal.ts ⟨2024, 3, 2⟩, ()⟩, 24291)]

theorem C6_witness :
    filterStep demoParseDate demoDF (some 24289) (some 24290) =
      Except.ok [⟨"legal", DateVal.ts ⟨2024, 1, 15⟩, ()⟩] ∧
    inBounds (some 24289) (some 24290) 24289 = true ∧
    inBounds (some 24289) (some 24290) 24288 = false ∧
    inBounds (some 24289) (some 24290) 24291 = false := by
  have hps : parseRows demoParseDate demoDF.rows = some demoParsed := by
    rfl
  have hc := C6_date_filter_inclusive_interval demoParseDate demoDF
    (some 24289) (some 24290) demoParsed rfl hps rfl
  refine ⟨?_, by decide, by decide, by decide⟩
  rw [hc.1]
  rfl

/-- C7: `is_valid_fen` is a total boolean function of its input: when
parsing the string raises (any malformed input), it returns `false`
rather than propagating the exception, and when parsing succeeds it
returns exactly the board's legality boolean. -/
theorem C7_is_valid_fen_total_no_raise
    (pf : String → Option Board) (fen : String) :
    (pf fen = none → is_valid_fen pf fen = false) ∧
    (∀ b, pf fen = some b → is_valid_fen pf fen = b.isValid) := by
  constructor
  · intro h
    simp [is_valid_fen, h]
  · intro b h
    simp [is_valid_fen, h]

theorem C7_witness :
    is_valid_fen demoParseFen "not/a/fen ###" = false ∧
    is_valid_fen demoParseFen "legal" = true ∧
    is_valid_fen demoParseFen "illegal" = false :=
  ⟨(C7_is_valid_fen_total_no_raise demoParseFen "not/a/fen ###").1 rfl,
    (C7_is_valid_fen_total_no_raise demoParseFen "legal").2 ⟨true⟩ rfl,
    (C7_is_valid_fen_total_no_raise demoParseFen "illegal").2 ⟨false⟩ rfl⟩

/-- C10: when a date range is supplied, the date column exists, but some
cell of it cannot be parsed as a calendar date, `add_eval` fails with
the date-parse error before any engine work: the same error results for
every engine oracle, and no output is produced. -/
theorem C10_unparseable_date_is_fatal
    (pf : String → Option Board) (pd : String → Option Date)
    (df : MoveDF ε) (depth : Nat) (sd ed : Option Int) (r : Row ε)
    (hcol : df.hasDateCol = true)
    (hsome : (sd.isSome || ed.isSome) = true)
    (hr : r ∈ df.rows)
    (hbad : toDatetimeCol pd r.date = none) :
    ∀ engine, add_eval pf pd engine df depth sd ed =
      Except.error AddEvalError.dateParseError := by
  intro engine
  have hpr : parseRow pd r = none := by
    simp [parseRow, hbad]
  have hnone : parseRows pd df.rows = none :=
    parseRows_eq_none_of_mem pd df.rows r hr hpr
  have hf : filterStep pd df sd ed =
      Except.error AddEvalError.dateParseError := by
    unfold filterStep
    rw [hsome]
    simp [hcol, hnone]
  simp [add_eval, hf]

/-- A frame whose second date cell is not a parseable date. -/
def demoBadDateDF : MoveDF Unit :=
  ⟨true, [⟨"legal", DateVal.raw "2024-01-15", ()⟩,
    ⟨"legal", DateVal.raw "bogus", ()⟩]⟩

theorem C10_witness :
    add_eval demoParseFen demoParseDate demoEngine demoBadDateDF 15
      (some 24289) none = Except.error AddEvalError.dateParseError :=
  C10_unparseable_date_is_fatal demoParseFen demoParseDate demoBadDateDF
    15 (some 24289) none ⟨"legal", DateVal.raw "bogus", ()⟩ rfl rfl
    (by simp [demoBadDateDF]) rfl demoEngine

/-- A one-row frame with a raw (string) date cell and a date column. -/
def c8df : MoveDF Unit :=
  ⟨true, [⟨"legal", DateVal.raw "2024-01-15", ()⟩]⟩

/-- C8 counterexample: with a date filter applied, the `date` attribute
is NOT passed through unchanged — the output carries the parsed datetime
value where the input carried the raw string, refuting the claim that
every attribute other than `eval` (including `date` under filtering) is
unchanged. -/
theorem C8_counterexample :
    (add_eval demoParseFen demoParseDate demoEngine c8df 15 (some 24289)
        none).map (fun r => r.out.map (fun p => p.1.date)) =
      Except.ok [DateVal.ts ⟨2024, 1, 15⟩] ∧
    c8df.rows.map Row.date = [DateVal.raw "2024-01-15"] ∧
    DateVal.ts ⟨2024, 1, 15⟩ ≠ DateVal.raw "2024-01-15" := by
  refine ⟨by rfl, by rfl, by decide⟩

/-- C8 (amended): the source collection is unmodified (the embedding is
pure in `df`), and the output rows pass every attribute through
unchanged when no date filter is applied; when a date filter is applied,
`fen` and the extra columns pass through unchanged while the `date`
attribute is replaced by its parsed datetime value. -/
theorem C8_passthrough_except_parsed_date
    (pf : String → Option Board) (pd : String → Option Date)
    (engine : Nat → Nat → String → Option EngineResponse)
    (df : MoveDF ε) (depth : Nat) (sd ed : Option Int)
    (res : AddEvalResult ε)
    (h : add_eval pf pd engine df depth sd ed = Except.ok res) :
    (sd = none → ed = none → res.out.map Prod.fst = df.rows) ∧
    ((sd.isSome || ed.isSome) = true →
      ∀ p ∈ res.out, ∃ r ∈ df.rows,
        p.1.fen = r.fen ∧ p.1.extra = r.extra ∧
        ∃ d, toDatetimeCol pd r.date = some d ∧
          p.1.date = DateVal.ts d) := by
  obtain ⟨rows, hf, hres, hfst⟩ :=
    add_eval_ok_inv pf pd engine df depth sd ed res h
  constructor
  · rintro rfl rfl
    have hnone : filterStep pd df none none = Except.ok df.rows := by
      simp [filterStep]
    rw [hnone] at hf
    obtain rfl : df.rows = rows := Except.ok.inj hf
    exact hfst
  · intro hsome p hp
    have hp1 : p.1 ∈ rows := by
      rw [← hfst]
      exact List.mem_map_of_mem Prod.fst hp
    have hcol' : df.hasDateCol = true := by
      cases hcolv : df.hasDateCol
      · exfalso
        have herr : filterStep pd df sd ed =
            Except.error AddEvalError.missingColumn := by
          unfold filterStep
          rw [hsome, hcolv]
          simp
        rw [herr] at hf
        exact Except.noConfusion hf
      · rfl
    rcases hpr : parseRows pd df.rows with _ | ps
    · exfalso
      have herr : filterStep pd df sd ed =
          Except.error AddEvalError.dateParseError := by
        unfold filterStep
        rw [hsome]
        simp [hcol', hpr]
      rw [herr] at hf
      exact Except.noConfusion hf
    · have heq := filterStep_eq_filter pd df sd ed ps hcol' hpr hsome
      rw [heq] at hf
      have hrows : (ps.filter (fun q => inBounds sd ed q.2)).map
          Prod.fst = rows := Except.ok.inj hf
      rw [← hrows] at hp1
      obtain ⟨q, hq, hq1⟩ := List.mem_map.mp hp1
      have hqps : q ∈ ps := (List.mem_filter.mp hq).1
      obtain ⟨r, hrdf, hparse⟩ := parseRows_mem pd df.rows ps hpr q hqps
      refine ⟨r, hrdf, ?_⟩
      unfold parseRow at hparse
      rcases hcell : toDatetimeCol pd r.date with _ | d <;>
        rw [hcell] at hparse
      · exact Option.noConfusion hparse
      · have hq' : ({ r with date := DateVal.ts d }, dateToPeriod d) =
            q := Option.some.inj hparse
        refine ⟨?_, ?_, d, rfl, ?_⟩
        · rw [← hq1, ← hq']
        · rw [← hq1, ← hq']
        · rw [← hq1, ← hq']

theorem C8_witness :
    add_eval demoParseFen demoParseDate demoEngine demoDF 15 none none =
      Except.ok demoRes ∧
    demoRes.out.map Prod.fst = demoDF.rows := by
  have h : add_eval demoParseFen demoParseDate demoEngine demoDF 15
      none none = Except.ok demoRes := by rfl
  exact ⟨h, (C8_passthrough_except_parsed_date demoParseFen
    demoParseDate demoEngine demoDF 15 none none demoRes h).1 rfl rfl⟩

/-- A 50-row frame whose 50th fen (loop index 49) is invalid and whose
other 49 fens are valid. -/
def c9df : MoveDF Unit :=
  ⟨false, List.replicate 49 (⟨"legal", DateVal.raw "", ()⟩ : Row Unit) ++
    [⟨"junk", DateVal.raw "", ()⟩]⟩

/-- C9 counterexample: 50 records are processed (the 50th invalid), yet
no progress report is emitted — the `continue` taken for an invalid fen
skips the every-50th progress check, refuting the claim that the report
fires after every 50th processed record including invalid ones. -/
theorem C9_counterexample :
    (add_eval demoParseFen demoParseDate demoEngine c9df 15 none
        none).map (fun r => (r.out.length, r.progressLog)) =
      Except.ok (50, []) := by rfl

/-- C9 (amended): a progress line is emitted after the record at index
`j` exactly when `j + 1` is a multiple of 50 AND that record's fen is
valid (invalid records `continue` past the cadence check); each line
reports `j + 1` records processed and the number of invalid records
among the first `j`; and the final summary always reports the total
processed and the total invalid. -/
theorem C9_progress_cadence_skips_invalid
    (pf : String → Option Board) (pd : String → Option Date)
    (engine : Nat → Nat → String → Option EngineResponse)
    (df : MoveDF ε) (depth : Nat) (sd ed : Option Int)
    (rows : List (Row ε)) (res : AddEvalResult ε)
    (hf : filterStep pd df sd ed = Except.ok rows)
    (h : add_eval pf pd engine df depth sd ed = Except.ok res) :
    res.progressLog = (List.range rows.length).filterMap (fun j =>
      if is_valid_fen pf ((rows.map Row.fen).getD j "") = true ∧
          (j + 1) % 50 = 0 then
        some (j + 1, List.countP (fun f => !(is_valid_fen pf f))
          ((rows.map Row.fen).take j))
      else none) ∧
    res.summary = (rows.length, res.invalidCount) := by
  obtain ⟨rows', hf', hres, _⟩ :=
    add_eval_ok_inv pf pd engine df depth sd ed res h
  rw [hf] at hf'
  obtain rfl : rows = rows' := Except.ok.inj hf'
  constructor
  · have hpl : res.progressLog = (runLoop (is_valid_fen pf)
        (engine depth) (rows.map Row.fen) 0 0 0).progress := by
      rw [hres]
    rw [hpl, runLoop_progress, List.length_map]
    apply filterMap_fun_ext
    intro j
    simp only [Nat.zero_add]
  · have hsum : res.summary = (rows.length, (runLoop (is_valid_fen pf)
        (engine depth) (rows.map Row.fen) 0 0 0).invalid) := by
      rw [hres]
    have hinv : res.invalidCount = (runLoop (is_valid_fen pf)
        (engine depth) (rows.map Row.fen) 0 0 0).invalid := by
      rw [hres]
    rw [hsum, hinv]

theorem C9_witness :
    add_eval demoParseFen demoParseDate demoEngine demoDF 15 none none =
      Except.ok demoRes ∧
    demoRes.progressLog = [] ∧
    demoRes.summary = (2, 1) := by
  have h : add_eval demoParseFen demoParseDate demoEngine demoDF 15
      none none = Except.ok demoRes := by rfl
  have hf : filterStep demoParseDate demoDF none none =
      Except.ok demoDF.rows := by rfl
  have hc := C9_progress_cadence_skips_invalid demoParseFen
    demoParseDate demoEngine demoDF 15 none none demoDF.rows demoRes
    hf h
  refine ⟨h, ?_, ?_⟩
  · rw [hc.1]
    rfl
  · rw [hc.2]
    rfl
